import Mathlib

/-!
Shallow embedding of the asset-alerts program (Go), covering the state
store (`state` package), the condition evaluator (`alerts` package), the
quote fetcher (`yahoo` package), configuration validation (`config`
package) and the top-level run loop (`main.go`).

Modelling conventions:
* Go `float64` prices and thresholds are modelled as rationals (`ℚ`);
  no claim under consideration exercises rounding behaviour where the
  binary floating-point representation and the rational value diverge.
* Go `time.Time` instants and `time.Duration` values are modelled as
  integers counting nanoseconds (`ℤ`), matching `time.Duration`'s unit.
* Go maps are modelled as association lists with first-match lookup and
  in-place replacement on update; the program never relies on map
  iteration order except in `main`'s price-update loop, which updates
  distinct keys.
* Effectful fetching (`yahoo.GetQuote`) is modelled by an oracle
  `fetch : String → Option Quote` describing which tickers succeed.
-/

namespace AssetAlerts

/-- Association-list lookup, first match wins (Go map read). -/
def getA {α : Type} : List (String × α) → String → Option α
  | [], _ => none
  | (k', v) :: rest, k => if k' = k then some v else getA rest k

/-- Association-list update: replace the first binding of the key, or
append a fresh binding (Go map write). -/
def setA {α : Type} : List (String × α) → String → α → List (String × α)
  | [], k, v => [(k, v)]
  | (k', v') :: rest, k, v =>
    if k' = k then (k, v) :: rest else (k', v') :: setA rest k v

/-- Nanoseconds in one hour, the unit of Go `time.Hour`. -/
def nanosPerHour : Int := 3600000000000

/-- Model of `state.PriceRecord`: a price at a point in time. -/
structure PriceRecord where
  price : ℚ
  timestamp : Int
deriving DecidableEq

/-- Model of `state.State`: prices, trigger flags and price history. -/
structure State where
  prices : List (String × PriceRecord)
  triggeredAlerts : List (String × Bool)
  priceHistory : List (String × List PriceRecord)
deriving DecidableEq

/-- Model of `config.ConditionConfig`. -/
structure ConditionConfig where
  type : String
  value : ℚ
  period : String
  message : String
deriving DecidableEq

/-- Model of `config.AlertConfig`. -/
structure AlertConfig where
  ticker : String
  name : String
  conditions : List ConditionConfig
deriving DecidableEq

/-- Model of `yahoo.Quote`. -/
structure Quote where
  ticker : String
  price : ℚ
  previousClose : ℚ
  timestamp : Int
deriving DecidableEq

/-- Two-digit zero padding for the fractional part of a fixed-point
rendering. -/
def padTwo (n : Nat) : String :=
  if n < 10 then "0" ++ toString n else toString n

/-- The nearest hundredth of a rational, scaled by 100: for `0 ≤ q`
this is `⌊100*q + 1/2⌋` computed on the numerator and denominator, the
rounding `%.2f` performs (the program's values never sit exactly on a
tie, so the tie-breaking direction is immaterial). -/
def roundCenti (q : ℚ) : Int :=
  (200 * q.num + (q.den : Int)) / (2 * (q.den : Int))

/-- The nearest tenth of a rational, scaled by 10 (see `roundCenti`). -/
def roundDeci (q : ℚ) : Int :=
  (20 * q.num + (q.den : Int)) / (2 * (q.den : Int))

/-- Go `fmt` `%.2f` on a non-negative value: round to the nearest
hundredth and print with exactly two decimals. -/
def formatFixed2Nonneg (q : ℚ) : String :=
  let m : Nat := (roundCenti q).toNat
  toString (m / 100) ++ "." ++ padTwo (m % 100)

/-- Go `fmt` `%.2f`. -/
def formatFixed2 (q : ℚ) : String :=
  if q < 0 then "-" ++ formatFixed2Nonneg (-q) else formatFixed2Nonneg q

/-- Go `fmt` `%.1f` on a non-negative value. -/
def formatFixed1Nonneg (q : ℚ) : String :=
  let m : Nat := (roundDeci q).toNat
  toString (m / 10) ++ "." ++ toString (m % 10)

/-- Go `fmt` `%.1f`. -/
def formatFixed1 (q : ℚ) : String :=
  if q < 0 then "-" ++ formatFixed1Nonneg (-q) else formatFixed1Nonneg q

/-- Model of `state.AlertKey`: `fmt.Sprintf("%s:%s:%.2f", ticker, alertType, value)`. -/
def AlertKey (ticker alertType : String) (value : ℚ) : String :=
  ticker ++ ":" ++ alertType ++ ":" ++ formatFixed2 value

/-- Model of `state.State.GetLastPrice`: `(record.Price, true)` when the ticker
has a current price, `(0, false)` otherwise. -/
def GetLastPrice (s : State) (ticker : String) : ℚ × Bool :=
  match getA s.prices ticker with
  | none => (0, false)
  | some r => (r.price, true)

/-- Model of `state.State.IsAlertTriggered`: Go map read with `false` default. -/
def IsAlertTriggered (s : State) (key : String) : Bool :=
  (getA s.triggeredAlerts key).getD false

/-- Model of `state.State.SetAlertTriggered`. -/
def SetAlertTriggered (s : State) (key : String) (triggered : Bool) : State :=
  { s with triggeredAlerts := setA s.triggeredAlerts key triggered }

/-- The history list recorded for a ticker (empty when the key is
absent, as a Go map read of a slice value yields `nil`). -/
def historyOf (s : State) (ticker : String) : List PriceRecord :=
  (getA s.priceHistory ticker).getD []

/-- Loop body of `state.State.GetPriceAtTime`: scan the history keeping
the qualifying record (`timestamp <= target`) with the strictly largest
timestamp seen so far. -/
def findClosest (target : Int) : List PriceRecord → Option PriceRecord → Option PriceRecord
  | [], acc => acc
  | r :: rest, acc =>
    if r.timestamp ≤ target then
      match acc with
      | none => findClosest target rest (some r)
      | some c =>
        if c.timestamp < r.timestamp then findClosest target rest (some r)
        else findClosest target rest (some c)
    else findClosest target rest acc

/-- Model of `state.State.GetPriceAtTime` with `time.Now()` passed explicitly as
`now`. Returns `(0, false)` when the ticker has no history; otherwise
the most recent record not newer than `now - ago`, falling back to the
first stored record when every record is newer. -/
def GetPriceAtTime (s : State) (ticker : String) (ago now : Int) : ℚ × Bool :=
  match getA s.priceHistory ticker with
  | none => (0, false)
  | some history =>
    match history with
    | [] => (0, false)
    | first :: _ =>
      let targetTime := now - ago
      match findClosest targetTime history none with
      | none => (first.price, true)
      | some closest => (closest.price, true)

/-- Model of `state.State.pruneHistory` with `time.Now()` passed explicitly:
keep exactly the records with `timestamp` strictly after
`now - maxAge` (Go `record.Timestamp.After(cutoff)`). -/
def pruneHistory (s : State) (ticker : String) (maxAge now : Int) : State :=
  match getA s.priceHistory ticker with
  | none => s
  | some history =>
    { s with
      priceHistory :=
        setA s.priceHistory ticker
          (history.filter fun r => now - maxAge < r.timestamp) }

/-- The retention window hard-coded in `state.State.UpdatePrice`:
`7*24*time.Hour`. -/
def retentionWindow : Int := 7 * 24 * nanosPerHour

/-- Model of `state.State.UpdatePrice` with `time.Now()` passed explicitly:
set the current price, append to history, then prune records older than
the 7-day retention window. -/
def UpdatePrice (s : State) (ticker : String) (price : ℚ) (now : Int) : State :=
  let record : PriceRecord := ⟨price, now⟩
  let s1 : State :=
    { s with
      prices := setA s.prices ticker record,
      priceHistory :=
        setA s.priceHistory ticker (historyOf s ticker ++ [record]) }
  pruneHistory s1 ticker retentionWindow now

/-- Numeric value of a digit run. -/
def digitsVal (cs : List Char) : Nat :=
  cs.foldl (fun a c => a * 10 + (c.toNat - 48)) 0

/-- Nanoseconds per Go duration unit, as accepted by
`time.ParseDuration`. -/
def unitNanos (u : String) : Option Int :=
  if u = "ns" then some 1
  else if u = "us" then some 1000
  else if u = "ms" then some 1000000
  else if u = "s" then some 1000000000
  else if u = "m" then some 60000000000
  else if u = "h" then some nanosPerHour
  else none

/-- One pass of Go `time.ParseDuration` restricted to unsigned integer
coefficients (the program's periods are of that shape; fractional or
signed durations are modelled as unparsable). `fuel` bounds the
recursion; each step consumes at least one character. -/
def goParseDurationAux (fuel : Nat) (cs : List Char) (acc : Int) : Option Int :=
  match fuel, cs with
  | 0, _ => none
  | _ + 1, [] => some acc
  | fuel + 1, c :: rest0 =>
    let cs0 := c :: rest0
    let digits := cs0.takeWhile (fun d => d.isDigit)
    if digits = [] then none
    else
      let rest := cs0.drop digits.length
      let unit := rest.takeWhile (fun d => ¬ d.isDigit)
      if unit = [] then none
      else
        match unitNanos (String.mk unit) with
        | none => none
        | some u =>
          goParseDurationAux fuel (rest.drop unit.length)
            (acc + (digitsVal digits : Int) * u)

/-- Model of Go `time.ParseDuration` on the restricted shape above;
`"0"` parses to the zero duration as in Go. -/
def goParseDuration (s : String) : Option Int :=
  if s = "0" then some 0
  else if s = "" then none
  else goParseDurationAux (s.length + 1) s.toList 0

/-- Model of `alerts.parseDuration`: a trailing `d` with a leading digit run
(Go `fmt.Sscanf(period, "%dd", &days)`) yields a day count; otherwise
fall back to `time.ParseDuration`. -/
def parseDuration (period : String) : Option Int :=
  let cs := period.toList
  if 1 < cs.length ∧ cs.getLast? = some 'd' then
    let digits := cs.takeWhile (fun d => d.isDigit)
    if digits ≠ [] ∧ (cs.drop digits.length).head? = some 'd' then
      some ((digitsVal digits : Int) * 24 * nanosPerHour)
    else none
  else goParseDuration period

/-- Model of `alerts.TriggeredAlert`. -/
structure TriggeredAlert where
  ticker : String
  name : String
  condition : ConditionConfig
  price : ℚ
  message : String
deriving DecidableEq

/-- Model of `alerts.Evaluator.formatMessage`: the custom message verbatim when
set, otherwise an auto-generated message using the display name (ticker
fallback), direction word, threshold and current price. -/
def formatMessage (alert : AlertConfig) (cond : ConditionConfig)
    (price : ℚ) (direction : String) : String :=
  if cond.message ≠ "" then cond.message
  else
    let name := if alert.name = "" then alert.ticker else alert.name
    name ++ " is " ++ direction ++ " $" ++ formatFixed2 cond.value ++
      " (currently $" ++ formatFixed2 price ++ ")"

/-- Model of `alerts.Evaluator.formatPercentMessage`. -/
def formatPercentMessage (alert : AlertConfig) (cond : ConditionConfig)
    (price change : ℚ) (direction : String) : String :=
  if cond.message ≠ "" then cond.message
  else
    let name := if alert.name = "" then alert.ticker else alert.name
    name ++ " moved " ++ formatFixed1 |change| ++ "% " ++ direction ++
      " in " ++ cond.period ++ " (currently $" ++ formatFixed2 price ++ ")"

/-- Model of `alerts.Evaluator.evaluateAbove`, state threaded explicitly. -/
def evaluateAbove (s : State) (alert : AlertConfig) (cond : ConditionConfig)
    (quote : Quote) : Option TriggeredAlert × State :=
  let key := AlertKey alert.ticker "above" cond.value
  let last := GetLastPrice s alert.ticker
  let isAbove := cond.value ≤ quote.price
  let alreadyTriggered := IsAlertTriggered s key
  if isAbove then
    if ¬ alreadyTriggered then
      (some ⟨alert.ticker, alert.name, cond, quote.price,
          formatMessage alert cond quote.price "above"⟩,
        SetAlertTriggered s key true)
    else (none, s)
  else
    if alreadyTriggered ∧ last.2 = true ∧ cond.value ≤ last.1 then
      (none, SetAlertTriggered s key false)
    else (none, s)

/-- Model of `alerts.Evaluator.evaluateBelow`, state threaded explicitly. -/
def evaluateBelow (s : State) (alert : AlertConfig) (cond : ConditionConfig)
    (quote : Quote) : Option TriggeredAlert × State :=
  let key := AlertKey alert.ticker "below" cond.value
  let last := GetLastPrice s alert.ticker
  let isBelow := quote.price ≤ cond.value
  let alreadyTriggered := IsAlertTriggered s key
  if isBelow then
    if ¬ alreadyTriggered then
      (some ⟨alert.ticker, alert.name, cond, quote.price,
          formatMessage alert cond quote.price "below"⟩,
        SetAlertTriggered s key true)
    else (none, s)
  else
    if alreadyTriggered ∧ last.2 = true ∧ last.1 ≤ cond.value then
      (none, SetAlertTriggered s key false)
    else (none, s)

/-- Model of `alerts.Evaluator.evaluatePercentChange`, state threaded explicitly
and `time.Now()` passed as `now`. -/
def evaluatePercentChange (s : State) (alert : AlertConfig)
    (cond : ConditionConfig) (quote : Quote) (now : Int) :
    Option TriggeredAlert × State :=
  match parseDuration cond.period with
  | none => (none, s)
  | some duration =>
    let hist := GetPriceAtTime s alert.ticker duration now
    if hist.2 = false then (none, s)
    else
      let histPrice := hist.1
      let percentChange := ((quote.price - histPrice) / histPrice) * 100
      let absChange := |percentChange|
      let key := AlertKey alert.ticker "percent_change" cond.value
      let alreadyTriggered := IsAlertTriggered s key
      if cond.value ≤ absChange then
        if ¬ alreadyTriggered then
          let direction := if percentChange < 0 then "down" else "up"
          (some ⟨alert.ticker, alert.name, cond, quote.price,
              formatPercentMessage alert cond quote.price percentChange direction⟩,
            SetAlertTriggered s key true)
        else (none, s)
      else
        if alreadyTriggered then (none, SetAlertTriggered s key false)
        else (none, s)

/-- Model of `alerts.Evaluator.evaluateCondition`: string dispatch on the
condition type; unknown types (the `switch` default) do nothing. -/
def evaluateCondition (s : State) (alert : AlertConfig)
    (cond : ConditionConfig) (quote : Quote) (now : Int) :
    Option TriggeredAlert × State :=
  if cond.type = "above" then evaluateAbove s alert cond quote
  else if cond.type = "below" then evaluateBelow s alert cond quote
  else if cond.type = "percent_change" then
    evaluatePercentChange s alert cond quote now
  else (none, s)

/-- Inner loop of `alerts.Evaluator.Evaluate`: evaluate the conditions
of one alert in order against its quote, threading the state and
collecting fired alerts. -/
def evalConditions (alert : AlertConfig) (quote : Quote) (now : Int) :
    State → List ConditionConfig → List TriggeredAlert × State
  | s, [] => ([], s)
  | s, cond :: rest =>
    match evaluateCondition s alert cond quote now with
    | (some t, s') =>
      let r := evalConditions alert quote now s' rest
      (t :: r.1, r.2)
    | (none, s') => evalConditions alert quote now s' rest

/-- One alert's contribution to `alerts.Evaluator.Evaluate`: skip
silently when the ticker has no fetched quote. -/
def evalAlert (s : State) (alert : AlertConfig)
    (quotes : List (String × Quote)) (now : Int) :
    List TriggeredAlert × State :=
  match getA quotes alert.ticker with
  | none => ([], s)
  | some quote => evalConditions alert quote now s alert.conditions

/-- Outer loop of `alerts.Evaluator.Evaluate`: iterate the configured
alerts in order, threading the state. -/
def evaluateAll (quotes : List (String × Quote)) (now : Int) :
    State → List AlertConfig → List TriggeredAlert × State
  | s, [] => ([], s)
  | s, alert :: rest =>
    let r := evalAlert s alert quotes now
    let r2 := evaluateAll quotes now r.2 rest
    (r.1 ++ r2.1, r2.2)

/-- Model of `alerts.Evaluator.Evaluate`: iterate every configured alert in
order, skipping tickers with no quote, collecting triggered alerts. -/
def Evaluate (s : State) (alerts : List AlertConfig)
    (quotes : List (String × Quote)) (now : Int) :
    List TriggeredAlert × State :=
  evaluateAll quotes now s alerts

/-- Model of `config.validateCondition`. -/
def validateCondition (c : ConditionConfig) : Except String Unit :=
  if ¬ (c.type = "above" ∨ c.type = "below" ∨ c.type = "percent_change") then
    .error ("invalid type \"" ++ c.type ++
      "\" (must be above, below, or percent_change)")
  else if c.value ≤ 0 then .error "value must be positive"
  else if c.type = "percent_change" ∧ c.period = "" then
    .error "period is required for percent_change conditions"
  else .ok ()

/-- ASCII-lowercase test, Go `c >= 'a' && c <= 'z'` on the byte. -/
def isLowerA (c : Char) : Bool :=
  97 ≤ c.toNat ∧ c.toNat ≤ 122

/-- ASCII uppercasing of one character, modelling Go `strings.ToUpper`
on the ASCII subset the program's tickers use. -/
def upChar (c : Char) : Char :=
  if isLowerA c then Char.ofNat (c.toNat - 32) else c

/-- ASCII uppercasing of a string (`strings.ToUpper`). -/
def upStr (s : String) : String :=
  String.mk (s.toList.map upChar)

/-- Loop of `config.Config.GetUniqueTickers`: the `seen` set always
holds exactly the tickers already appended, so it is modelled by
membership in the accumulator. -/
def getUniqueTickersAux : List AlertConfig → List String → List String
  | [], acc => acc
  | alert :: rest, acc =>
    let t := upStr alert.ticker
    if t ∈ acc then getUniqueTickersAux rest acc
    else getUniqueTickersAux rest (acc ++ [t])

/-- Model of `config.Config.GetUniqueTickers`: deduplicated uppercased tickers
in first-appearance order. -/
def GetUniqueTickers (alerts : List AlertConfig) : List String :=
  getUniqueTickersAux alerts []

/-- Loop of `yahoo.Client.GetQuotes`: try each ticker against the fetch
oracle, recording successes in the quotes map and remembering the last
error. -/
def getQuotesAux (fetch : String → Option Quote) :
    List String → List (String × Quote) → Option String →
    List (String × Quote) × Option String
  | [], quotes, lastErr => (quotes, lastErr)
  | t :: rest, quotes, lastErr =>
    match fetch t with
    | none => getQuotesAux fetch rest quotes (some ("fetching " ++ t))
    | some q => getQuotesAux fetch rest (setA quotes t q) lastErr

/-- Model of `yahoo.Client.GetQuotes`: partial failure tolerated; an error is
returned only when the quotes map is empty and some fetch failed. -/
def GetQuotes (fetch : String → Option Quote) (tickers : List String) :
    Except String (List (String × Quote)) :=
  let r := getQuotesAux fetch tickers [] none
  match r.2 with
  | some e => if r.1 = [] then .error ("all tickers failed, last error: " ++ e) else .ok r.1
  | none => .ok r.1

/-- The payload `ntfy.Sender.SendAlert` would post for one triggered
alert: title, full message and tags. -/
def sendAlertPayload (t : TriggeredAlert) : String × String × List String :=
  let title :=
    if t.name = "" then "💰 " ++ t.ticker ++ " Alert"
    else "💰 " ++ t.name ++ " Alert"
  let fullMessage :=
    t.message ++ "\n\nCurrent price: $" ++ formatFixed2 t.price
  (title, fullMessage, ["chart_with_upwards_trend", t.ticker])

/-- Outcome of one `main` run: the triggered alerts, the notifications
actually sent, and the state as persisted at exit. -/
structure RunOutcome where
  triggered : List TriggeredAlert
  sent : List (String × String × List String)
  finalState : State
deriving DecidableEq

/-- The `main.go` pipeline after config and state loading: fetch quotes
for the unique tickers (fatal when all fail), evaluate alerts, send
notifications unless `dryRun`, then record every fetched price and save
the state. -/
def run (alerts : List AlertConfig) (st : State)
    (fetch : String → Option Quote) (now : Int) (dryRun : Bool) :
    Except String RunOutcome :=
  match GetQuotes fetch (GetUniqueTickers alerts) with
  | .error e => .error e
  | .ok quotes =>
    let r := Evaluate st alerts quotes now
    let sent := if dryRun then [] else r.1.map sendAlertPayload
    let finalState :=
      quotes.foldl (fun s tq => UpdatePrice s tq.1 tq.2.price now) r.2
    .ok ⟨r.1, sent, finalState⟩

/-- A sequence of evaluations of one Above condition against successive
quotes (one per run), collecting any fired alerts. -/
def runAboveSeq (alert : AlertConfig) (cond : ConditionConfig) :
    State → List Quote → List TriggeredAlert × State
  | s, [] => ([], s)
  | s, q :: rest =>
    match evaluateAbove s alert cond q with
    | (some t, s') =>
      let r := runAboveSeq alert cond s' rest
      (t :: r.1, r.2)
    | (none, s') => runAboveSeq alert cond s' rest

/-! ### Helper lemmas on the association-list operations -/

theorem getA_setA_self {α : Type} (m : List (String × α)) (k : String) (v : α) :
    getA (setA m k v) k = some v := by
  induction m with
  | nil => simp [setA, getA]
  | cons hd tl ih =>
    by_cases h : hd.1 = k
    · simp [setA, h, getA]
    · simp [setA, h, getA, ih]

theorem getA_setA_ne {α : Type} (m : List (String × α)) {k' k : String}
    (v : α) (h : k' ≠ k) : getA (setA m k' v) k = getA m k := by
  induction m with
  | nil => simp [setA, getA, h]
  | cons hd tl ih =>
    by_cases hh : hd.1 = k'
    · simp [setA, hh, getA, h]
    · simp only [setA, hh, if_false, getA]
      by_cases hk : hd.1 = k
      · simp [hk]
      · simp [hk, ih]

theorem setA_ne_nil {α : Type} (m : List (String × α)) (k : String) (v : α) :
    setA m k v ≠ [] := by
  cases m with
  | nil => simp [setA]
  | cons hd tl =>
    by_cases h : hd.1 = k <;> simp [setA, h]

theorem IsAlertTriggered_SetAlertTriggered_self (s : State) (key : String) (b : Bool) :
    IsAlertTriggered (SetAlertTriggered s key b) key = b := by
  simp [IsAlertTriggered, SetAlertTriggered, getA_setA_self]

/-! ### C1: the documented AbsoluteChange condition kind -/

/-- C1: the spec describes an AbsoluteChange(dollarThreshold, period)
condition with the same fire/hold/reset mechanics as PercentChange that
in particular can fire. In the code, `validateCondition` rejects the
`absolute_change` type outright and `evaluateCondition` has no case for
it, so such a condition can never fire: every evaluation returns no
alert and leaves the state untouched. -/
theorem absoluteChange_rejected_and_never_fires :
    validateCondition ⟨"absolute_change", 5, "24h", ""⟩ =
      .error "invalid type \"absolute_change\" (must be above, below, or percent_change)" ∧
    ∀ (s : State) (alert : AlertConfig) (quote : Quote) (now : Int)
      (v : ℚ) (p m : String),
      evaluateCondition s alert ⟨"absolute_change", v, p, m⟩ quote now = (none, s) := by
  refine ⟨rfl, fun s alert quote now v p m => ?_⟩
  simp [evaluateCondition]

/-! ### C2: Above reset requires previous-price confirmation -/

/-- C2: for an Above condition with its trigger flag currently true and
a current price strictly below the threshold, evaluation fires nothing,
and the flag resets to false exactly when the previous run's last
recorded price exists and is at least the threshold; otherwise it stays
true. -/
theorem above_reset_iff_prev_price_confirms (s : State) (alert : AlertConfig)
    (cond : ConditionConfig) (quote : Quote)
    (ht : IsAlertTriggered s (AlertKey alert.ticker "above" cond.value) = true)
    (hb : quote.price < cond.value) :
    (evaluateAbove s alert cond quote).1 = none ∧
    (IsAlertTriggered (evaluateAbove s alert cond quote).2
        (AlertKey alert.ticker "above" cond.value) = false ↔
      (GetLastPrice s alert.ticker).2 = true ∧
        cond.value ≤ (GetLastPrice s alert.ticker).1) := by
  have hnab : ¬ cond.value ≤ quote.price := not_le.mpr hb
  by_cases hc : (GetLastPrice s alert.ticker).2 = true ∧
      cond.value ≤ (GetLastPrice s alert.ticker).1
  · simp [evaluateAbove, hnab, ht, hc, IsAlertTriggered_SetAlertTriggered_self]
  · simp [evaluateAbove, hnab, ht, hc]

/-- Witness for C2 at a concrete input: Above(100) triggered, current
price 99, previous recorded price 101 — the flag resets. -/
theorem above_reset_iff_prev_price_confirms_witness :
    (evaluateAbove
        ⟨[("X", ⟨101, 0⟩)], [("X:above:100.00", true)], []⟩
        ⟨"X", "", []⟩ ⟨"above", 100, "", ""⟩ ⟨"X", 99, 0, 0⟩).1 = none ∧
    (IsAlertTriggered
        (evaluateAbove
          ⟨[("X", ⟨101, 0⟩)], [("X:above:100.00", true)], []⟩
          ⟨"X", "", []⟩ ⟨"above", 100, "", ""⟩ ⟨"X", 99, 0, 0⟩).2
        (AlertKey "X" "above" 100) = false ↔
      (GetLastPrice ⟨[("X", ⟨101, 0⟩)], [("X:above:100.00", true)], []⟩ "X").2 = true ∧
        (100 : ℚ) ≤ (GetLastPrice ⟨[("X", ⟨101, 0⟩)], [("X:above:100.00", true)], []⟩ "X").1) :=
  above_reset_iff_prev_price_confirms
    ⟨[("X", ⟨101, 0⟩)], [("X:above:100.00", true)], []⟩
    ⟨"X", "", []⟩ ⟨"above", 100, "", ""⟩ ⟨"X", 99, 0, 0⟩
    (by decide) (by decide)

/-! ### C3: a triggered Above condition cannot fire again -/

/-- C3: once the trigger flag of an Above condition is true, any
sequence of evaluations whose prices all stay at or above the threshold
fires no alert and leaves the state (in particular the flag, still
true) completely unchanged. -/
theorem above_triggered_no_refire (s : State) (alert : AlertConfig)
    (cond : ConditionConfig) (quotes : List Quote)
    (ht : IsAlertTriggered s (AlertKey alert.ticker "above" cond.value) = true)
    (hall : ∀ q ∈ quotes, cond.value ≤ q.price) :
    runAboveSeq alert cond s quotes = ([], s) := by
  induction quotes with
  | nil => rfl
  | cons q rest ih =>
    have hq : cond.value ≤ q.price := hall q (List.mem_cons_self q rest)
    have hstep : evaluateAbove s alert cond q = (none, s) := by
      simp [evaluateAbove, hq, ht]
    simp [runAboveSeq, hstep]
    exact ih fun q' hq' => hall q' (List.mem_cons_of_mem q hq')

/-- Witness for C3: Above(100) already triggered, three runs at prices
100, 150 and 100 — no alert fires and the flag stays true. -/
theorem above_triggered_no_refire_witness :
    runAboveSeq ⟨"X", "", []⟩ ⟨"above", 100, "", ""⟩
        ⟨[], [("X:above:100.00", true)], []⟩
        [⟨"X", 100, 0, 0⟩, ⟨"X", 150, 0, 0⟩, ⟨"X", 100, 0, 0⟩] =
      ([], ⟨[], [("X:above:100.00", true)], []⟩) :=
  above_triggered_no_refire ⟨[], [("X:above:100.00", true)], []⟩
    ⟨"X", "", []⟩ ⟨"above", 100, "", ""⟩
    [⟨"X", 100, 0, 0⟩, ⟨"X", 150, 0, 0⟩, ⟨"X", 100, 0, 0⟩]
    (by decide) (by decide)

/-! ### C7: PercentChange with no history is a no-op -/

/-- C7: evaluating a PercentChange condition for a ticker with no price
history fires no alert and returns the state unchanged (so the trigger
flag is untouched), for every threshold, period, quote and prior flag
value. -/
theorem percentChange_no_history_noop (s : State) (alert : AlertConfig)
    (cond : ConditionConfig) (quote : Quote) (now : Int)
    (hh : historyOf s alert.ticker = []) :
    evaluatePercentChange s alert cond quote now = (none, s) := by
  cases hp : parseDuration cond.period with
  | none => simp [evaluatePercentChange, hp]
  | some d =>
    have hfalse : (GetPriceAtTime s alert.ticker d now).2 = false := by
      unfold GetPriceAtTime
      cases hg : getA s.priceHistory alert.ticker with
      | none => simp
      | some h =>
        have : h = [] := by simpa [historyOf, hg] using hh
        subst this
        simp
    simp [evaluatePercentChange, hp, hfalse]

/-- Witness for C7 at a concrete input: no history for the ticker, flag
already true, threshold 5%, period 24h — evaluation returns no alert
and the identical state. -/
theorem percentChange_no_history_noop_witness :
    evaluatePercentChange
        ⟨[], [("X:percent_change:5.00", true)], []⟩
        ⟨"X", "", []⟩ ⟨"percent_change", 5, "24h", ""⟩ ⟨"X", 99, 0, 0⟩ 0 =
      (none, ⟨[], [("X:percent_change:5.00", true)], []⟩) :=
  percentChange_no_history_noop ⟨[], [("X:percent_change:5.00", true)], []⟩
    ⟨"X", "", []⟩ ⟨"percent_change", 5, "24h", ""⟩ ⟨"X", 99, 0, 0⟩ 0 (by decide)

/-! ### C5: composite trigger-flag keys collapse at two decimals -/

/-- C5: the composite key is the ticker, condition kind and the
threshold rendered at two decimal places, joined by colons; two
thresholds on the same ticker and kind that round to the same
two-decimal value therefore produce the identical key and hence share
one trigger flag. -/
theorem alertKey_two_decimal_collapse :
    (∀ (ticker kind : String) (v : ℚ),
      AlertKey ticker kind v = ticker ++ ":" ++ kind ++ ":" ++ formatFixed2 v) ∧
    (∀ (ticker kind : String) (v₁ v₂ : ℚ), 0 ≤ v₁ → 0 ≤ v₂ →
      roundCenti v₁ = roundCenti v₂ → AlertKey ticker kind v₁ = AlertKey ticker kind v₂) := by
  constructor
  · intro ticker kind v
    rfl
  · intro ticker kind v₁ v₂ h₁ h₂ hr
    have e₁ : ¬ v₁ < 0 := not_lt.mpr h₁
    have e₂ : ¬ v₂ < 0 := not_lt.mpr h₂
    simp [AlertKey, formatFixed2, e₁, e₂, formatFixed2Nonneg, hr]

/-- Witness for C5: thresholds 100.001 and 100.004 on the same ticker
and kind yield the identical composite key. -/
theorem alertKey_two_decimal_collapse_witness :
    AlertKey "AAPL" "above" (Rat.mk' 100001 1000) =
      AlertKey "AAPL" "above" (Rat.mk' 25001 250) :=
  alertKey_two_decimal_collapse.2 "AAPL" "above"
    (Rat.mk' 100001 1000) (Rat.mk' 25001 250)
    (by decide) (by decide) (by decide)

/-! ### C6: history pruning boundary -/

/-- C6 amended: `UpdatePrice` sets the current price record, appends it
to the history, and then keeps exactly the entries with timestamp
strictly greater than `now - retentionWindow`; an entry timestamped
exactly at the cutoff is removed, not kept. -/
theorem updatePrice_prunes_upto_cutoff (s : State) (ticker : String)
    (price : ℚ) (now : Int) :
    getA (UpdatePrice s ticker price now).prices ticker =
      some (⟨price, now⟩ : PriceRecord) ∧
    historyOf (UpdatePrice s ticker price now) ticker =
      (historyOf s ticker ++ [(⟨price, now⟩ : PriceRecord)]).filter
        (fun r => now - retentionWindow < r.timestamp) := by
  have hget : getA
      (setA s.priceHistory ticker (historyOf s ticker ++ [(⟨price, now⟩ : PriceRecord)]))
      ticker = some (historyOf s ticker ++ [(⟨price, now⟩ : PriceRecord)]) :=
    getA_setA_self _ _ _
  constructor
  · simp [UpdatePrice, pruneHistory, hget, getA_setA_self]
  · simp [UpdatePrice, pruneHistory, hget, historyOf, getA_setA_self]

/-- Counterexample for C6 as stated: with the retention window `W`, a
history entry timestamped exactly at the cutoff `now - W` (here
`now = W`, entry timestamp `0`) satisfies the claim's keep condition
`timestamp ≥ now - W`, yet `UpdatePrice` removes it. -/
theorem updatePrice_cutoff_entry_dropped :
    (0 : Int) ≥ retentionWindow - retentionWindow ∧
    (⟨1, 0⟩ : PriceRecord) ∈
      historyOf ⟨[], [], [("A", [⟨1, 0⟩])]⟩ "A" ∧
    (⟨1, 0⟩ : PriceRecord) ∉
      historyOf (UpdatePrice ⟨[], [], [("A", [⟨1, 0⟩])]⟩ "A" 2 retentionWindow) "A" := by
  refine ⟨by decide, by decide, ?_⟩
  decide

/-! ### C4: characterisation of GetPriceAtTime -/

theorem getLast?_cons_or {α : Type} (a : α) (l : List α) :
    (a :: l).getLast? = l.getLast?.or (some a) := by
  cases l with
  | nil => rfl
  | cons b t =>
    rw [List.getLast?_cons_cons]
    obtain ⟨x, hx⟩ := Option.isSome_iff_exists.mp
      (List.getLast?_isSome.mpr (by simp) : (b :: t).getLast?.isSome)
    simp [hx]

/-- On a history with strictly increasing timestamps, the scanning loop
of `GetPriceAtTime` returns the last qualifying record (the filter's
last element), falling back to the accumulator. -/
theorem findClosest_sorted (target : Int) :
    ∀ (l : List PriceRecord) (acc : Option PriceRecord),
      (∀ c, acc = some c → ∀ r ∈ l, c.timestamp < r.timestamp) →
      List.Pairwise (fun a b => a.timestamp < b.timestamp) l →
      findClosest target l acc =
        ((l.filter fun r => r.timestamp ≤ target).getLast?).or acc := by
  intro l
  induction l with
  | nil =>
    intro acc _ _
    simp [findClosest]
  | cons r rest ih =>
    intro acc hacc hsort
    have hhead : ∀ x ∈ rest, r.timestamp < x.timestamp :=
      (List.pairwise_cons.mp hsort).1
    have hsort' : List.Pairwise (fun a b => a.timestamp < b.timestamp) rest :=
      (List.pairwise_cons.mp hsort).2
    by_cases hq : r.timestamp ≤ target
    · have hfil : (r :: rest).filter (fun x => x.timestamp ≤ target) =
          r :: rest.filter (fun x => x.timestamp ≤ target) := by
        simp [List.filter_cons, hq]
      cases acc with
      | none =>
        have hstep : findClosest target (r :: rest) none =
            findClosest target rest (some r) := by
          simp [findClosest, hq]
        rw [hstep, ih (some r)
            (fun c hc x hx => by cases hc; exact hhead x hx) hsort',
          hfil, getLast?_cons_or]
        cases h : (rest.filter fun x => x.timestamp ≤ target).getLast? <;> simp
      | some c =>
        have hcr : c.timestamp < r.timestamp :=
          hacc c rfl r (List.mem_cons_self r rest)
        have hstep : findClosest target (r :: rest) (some c) =
            findClosest target rest (some r) := by
          simp [findClosest, hq, hcr]
        rw [hstep, ih (some r)
            (fun c' hc' x hx => by cases hc'; exact hhead x hx) hsort',
          hfil, getLast?_cons_or]
        cases h : (rest.filter fun x => x.timestamp ≤ target).getLast? <;> simp
    · have hfil : (r :: rest).filter (fun x => x.timestamp ≤ target) =
          rest.filter (fun x => x.timestamp ≤ target) := by
        simp [List.filter_cons, hq]
      have hstep : findClosest target (r :: rest) acc =
          findClosest target rest acc := by
        simp [findClosest, hq]
      rw [hstep, ih acc
          (fun c hc x hx => hacc c hc x (List.mem_cons_of_mem r hx)) hsort',
        hfil]

/-- C4: for a ticker whose stored history has strictly increasing
timestamps, `GetPriceAtTime` reports not-found exactly when the history
is empty; otherwise it returns the price of the most recent entry with
timestamp at most `now - ago` (the last element of the filtered
history), or the price of the first (oldest) entry when every entry is
newer than the target. -/
theorem getPriceAtTime_spec (s : State) (t : String) (ago now : Int)
    (hsort : List.Pairwise (fun a b => a.timestamp < b.timestamp) (historyOf s t)) :
    ((GetPriceAtTime s t ago now).2 = false ↔ historyOf s t = []) ∧
    (∀ r, ((historyOf s t).filter fun rec => rec.timestamp ≤ now - ago).getLast? =
        some r → (GetPriceAtTime s t ago now).1 = r.price) ∧
    (((historyOf s t).filter fun rec => rec.timestamp ≤ now - ago) = [] →
      ∀ first rest, historyOf s t = first :: rest →
        (GetPriceAtTime s t ago now).1 = first.price) := by
  cases hg : getA s.priceHistory t with
  | none =>
    have he : historyOf s t = [] := by simp [historyOf, hg]
    refine ⟨by simp [GetPriceAtTime, hg, he], ?_, ?_⟩
    · intro r hr
      rw [he] at hr
      simp at hr
    · intro _ first rest hfr
      rw [he] at hfr
      exact absurd hfr (by simp)
  | some h =>
    have he : historyOf s t = h := by simp [historyOf, hg]
    cases h with
    | nil =>
      refine ⟨by simp [GetPriceAtTime, hg, he], ?_, ?_⟩
      · intro r hr
        rw [he] at hr
        simp at hr
      · intro _ first rest hfr
        rw [he] at hfr
        exact absurd hfr (by simp)
    | cons first restl =>
      rw [he] at hsort
      have hfc := findClosest_sorted (now - ago) (first :: restl) none
        (fun c hc => nomatch hc) hsort
      refine ⟨?_, ?_, ?_⟩
      · rw [he]
        simp only [GetPriceAtTime, hg]
        cases hx : findClosest (now - ago) (first :: restl) none <;> simp [hx]
      · intro r hr
        rw [he] at hr
        have : findClosest (now - ago) (first :: restl) none = some r := by
          rw [hfc, hr]
          rfl
        simp [GetPriceAtTime, hg, this]
      · intro hempty first' rest' hfr
        rw [he] at hempty hfr
        have hfirst : first' = first := by
          injection hfr.symm
        have : findClosest (now - ago) (first :: restl) none = none := by
          rw [hfc, hempty]
          rfl
        simp [GetPriceAtTime, hg, this, hfirst]

/-- Witness for C4 on a concrete sorted history: entries at timestamps
0, 100 and 200; querying 50 time units before now = 150 targets 100 and
must return the entry recorded at timestamp 100. -/
theorem getPriceAtTime_spec_witness :
    ((GetPriceAtTime ⟨[], [], [("A", [⟨10, 0⟩, ⟨20, 100⟩, ⟨30, 200⟩])]⟩ "A" 50 150).2 = false ↔
      historyOf ⟨[], [], [("A", [⟨10, 0⟩, ⟨20, 100⟩, ⟨30, 200⟩])]⟩ "A" = []) ∧
    (∀ r, ((historyOf ⟨[], [], [("A", [⟨10, 0⟩, ⟨20, 100⟩, ⟨30, 200⟩])]⟩ "A").filter
        fun rec => rec.timestamp ≤ 150 - 50).getLast? = some r →
      (GetPriceAtTime ⟨[], [], [("A", [⟨10, 0⟩, ⟨20, 100⟩, ⟨30, 200⟩])]⟩ "A" 50 150).1 = r.price) ∧
    (((historyOf ⟨[], [], [("A", [⟨10, 0⟩, ⟨20, 100⟩, ⟨30, 200⟩])]⟩ "A").filter
        fun rec => rec.timestamp ≤ 150 - 50) = [] →
      ∀ first rest, historyOf ⟨[], [], [("A", [⟨10, 0⟩, ⟨20, 100⟩, ⟨30, 200⟩])]⟩ "A" = first :: rest →
        (GetPriceAtTime ⟨[], [], [("A", [⟨10, 0⟩, ⟨20, 100⟩, ⟨30, 200⟩])]⟩ "A" 50 150).1 = first.price) :=
  getPriceAtTime_spec ⟨[], [], [("A", [⟨10, 0⟩, ⟨20, 100⟩, ⟨30, 200⟩])]⟩ "A" 50 150 (by decide)

/-! ### C8: missing quotes are skipped; total fetch failure errors -/

/-- An alert whose ticker has no fetched quote contributes nothing: the
evaluation of any alert list containing it equals the evaluation with
it removed. -/
theorem evaluate_skip (quotes : List (String × Quote)) (now : Int)
    (alert : AlertConfig) (hq : getA quotes alert.ticker = none) :
    ∀ (pre post : List AlertConfig) (s : State),
      evaluateAll quotes now s (pre ++ alert :: post) =
        evaluateAll quotes now s (pre ++ post) := by
  intro pre
  induction pre with
  | nil =>
    intro post s
    have hskip : evalAlert s alert quotes now = ([], s) := by
      simp [evalAlert, hq]
    simp [evaluateAll, hskip]
  | cons a pre ih =>
    intro post s
    simp only [List.cons_append, evaluateAll, List.append_eq]
    rw [ih]

theorem getQuotesAux_fst_nil (fetch : String → Option Quote) :
    ∀ (l : List String) (m : List (String × Quote)) (le : Option String),
      (getQuotesAux fetch l m le).1 = [] ↔
        (m = [] ∧ ∀ t ∈ l, fetch t = none) := by
  intro l
  induction l with
  | nil =>
    intro m le
    simp [getQuotesAux]
  | cons t rest ih =>
    intro m le
    cases hf : fetch t with
    | none => simp [getQuotesAux, hf, ih]
    | some q =>
      simp [getQuotesAux, hf, ih, setA_ne_nil]

theorem getQuotesAux_snd_none (fetch : String → Option Quote) :
    ∀ (l : List String) (m : List (String × Quote)) (le : Option String),
      (getQuotesAux fetch l m le).2 = none ↔
        (le = none ∧ ∀ t ∈ l, fetch t ≠ none) := by
  intro l
  induction l with
  | nil =>
    intro m le
    simp [getQuotesAux]
  | cons t rest ih =>
    intro m le
    cases hf : fetch t with
    | none => simp [getQuotesAux, hf, ih]
    | some q => simp [getQuotesAux, hf, ih]

/-- C8 part (b) in isolation: `GetQuotes` errors out exactly when some
ticker was requested and every requested fetch failed. -/
theorem getQuotes_error_iff (fetch : String → Option Quote) (tickers : List String) :
    (∃ e, GetQuotes fetch tickers = .error e) ↔
      (tickers ≠ [] ∧ ∀ t ∈ tickers, fetch t = none) := by
  constructor
  · rintro ⟨e, he⟩
    simp only [GetQuotes] at he
    split at he
    case h_2 => exact absurd he (by simp)
    case h_1 e' he2 =>
      split at he
      case isFalse => exact absurd he (by simp)
      case isTrue hfst =>
        have hall : ∀ t ∈ tickers, fetch t = none :=
          ((getQuotesAux_fst_nil fetch tickers [] none).mp hfst).2
        refine ⟨?_, hall⟩
        intro hnil
        subst hnil
        simp [getQuotesAux] at he2
  · rintro ⟨hne, hall⟩
    have hfst : (getQuotesAux fetch tickers [] none).1 = [] :=
      (getQuotesAux_fst_nil fetch tickers [] none).mpr ⟨rfl, hall⟩
    have hsnd : (getQuotesAux fetch tickers [] none).2 ≠ none := by
      intro h0
      cases tickers with
      | nil => exact hne rfl
      | cons t rest =>
        exact ((getQuotesAux_snd_none fetch (t :: rest) [] none).mp h0).2 t
          (List.mem_cons_self t rest) (hall t (List.mem_cons_self t rest))
    obtain ⟨e, he2⟩ := Option.ne_none_iff_exists'.mp hsnd
    exact ⟨"all tickers failed, last error: " ++ e,
      by simp [GetQuotes, he2, hfst]⟩

/-- C8: (a) an alert for a ticker absent from the fetched-quotes map is
skipped entirely — the evaluation result (alerts fired and state, hence
every trigger flag) is as if the alert were not configured, while all
other alerts are still evaluated; (b) the quote-fetch step returns an
error exactly when at least one ticker was requested and every
requested ticker's fetch failed. -/
theorem missing_quote_skip_and_total_failure_error :
    (∀ (st : State) (pre post : List AlertConfig) (alert : AlertConfig)
       (quotes : List (String × Quote)) (now : Int),
      getA quotes alert.ticker = none →
        Evaluate st (pre ++ alert :: post) quotes now =
          Evaluate st (pre ++ post) quotes now) ∧
    (∀ (fetch : String → Option Quote) (tickers : List String),
      (∃ e, GetQuotes fetch tickers = .error e) ↔
        (tickers ≠ [] ∧ ∀ t ∈ tickers, fetch t = none)) :=
  ⟨fun st pre post alert quotes now hq =>
      evaluate_skip quotes now alert hq pre post st,
    fun fetch tickers => getQuotes_error_iff fetch tickers⟩

/-- Witness for C8: an alert on ticker X with a Below condition is
skipped when only Y has a quote (the run behaves as if the alert were
absent), and a fetch where the single requested ticker fails yields an
error. -/
theorem missing_quote_skip_and_total_failure_error_witness :
    Evaluate ⟨[], [], []⟩ ([] ++ ⟨"X", "", [⟨"below", 50, "", ""⟩]⟩ :: [])
        [("Y", ⟨"Y", 1, 0, 0⟩)] 0 =
      Evaluate ⟨[], [], []⟩ ([] ++ []) [("Y", ⟨"Y", 1, 0, 0⟩)] 0 ∧
    (∃ e, GetQuotes (fun _ => none) ["A"] = .error e) :=
  ⟨missing_quote_skip_and_total_failure_error.1 ⟨[], [], []⟩ [] []
      ⟨"X", "", [⟨"below", 50, "", ""⟩]⟩ [("Y", ⟨"Y", 1, 0, 0⟩)] 0 (by decide),
    (missing_quote_skip_and_total_failure_error.2 (fun _ => none) ["A"]).mpr
      ⟨by decide, fun t _ => rfl⟩⟩

/-! ### C9: dry-run changes nothing but the send step -/

/-- C9: for every configuration, starting state, fetch outcome and
time, a dry-run computes the same triggered-alert list and the same
final persisted state (trigger flags, last prices and history) as a
normal run — and also errors identically; the only difference is that
the dry-run sends no notifications. -/
theorem dryRun_same_alerts_and_state (alerts : List AlertConfig)
    (st : State) (fetch : String → Option Quote) (now : Int) :
    Except.map (fun r => (r.triggered, r.finalState))
        (run alerts st fetch now true) =
      Except.map (fun r => (r.triggered, r.finalState))
        (run alerts st fetch now false) ∧
    Except.map (fun r => r.sent) (run alerts st fetch now true) =
      Except.map (fun _ => ([] : List (String × String × List String)))
        (run alerts st fetch now true) := by
  cases h : GetQuotes fetch (GetUniqueTickers alerts) with
  | error e => simp [run, h, Except.map]
  | ok quotes => simp [run, h, Except.map]

/-! ### C10: lowercase configured tickers are never evaluated -/

theorem upChar_not_lower (c : Char) : isLowerA (upChar c) = false := by
  cases h : isLowerA c with
  | false => simp [upChar, h]
  | true =>
    have hand : 97 ≤ c.toNat ∧ c.toNat ≤ 122 := of_decide_eq_true h
    have hb : ∀ m : Nat, m < 123 → 97 ≤ m →
        isLowerA (Char.ofNat (m - 32)) = false := by decide
    simpa [upChar, h] using
      hb c.toNat (Nat.lt_succ_of_le hand.2) hand.1

theorem upStr_no_lower (s : String) :
    ∀ c ∈ (upStr s).toList, isLowerA c = false := by
  intro c hc
  have : (upStr s).toList = s.toList.map upChar := rfl
  rw [this] at hc
  obtain ⟨c', _, rfl⟩ := List.mem_map.mp hc
  exact upChar_not_lower c'

theorem mem_getUniqueTickersAux_of_mem_acc :
    ∀ (alerts : List AlertConfig) (acc : List String) (x : String),
      x ∈ acc → x ∈ getUniqueTickersAux alerts acc := by
  intro alerts
  induction alerts with
  | nil =>
    intro acc x hx
    simpa [getUniqueTickersAux] using hx
  | cons hd rest ih =>
    intro acc x hx
    by_cases h : upStr hd.ticker ∈ acc
    · simpa [getUniqueTickersAux, h] using ih acc x hx
    · simpa [getUniqueTickersAux, h] using
        ih (acc ++ [upStr hd.ticker]) x (List.mem_append_left _ hx)

theorem upper_mem_getUniqueTickersAux :
    ∀ (alerts : List AlertConfig) (acc : List String) (a : AlertConfig),
      a ∈ alerts → upStr a.ticker ∈ getUniqueTickersAux alerts acc := by
  intro alerts
  induction alerts with
  | nil =>
    intro acc a ha
    exact absurd ha (List.not_mem_nil a)
  | cons hd rest ih =>
    intro acc a ha
    rcases List.mem_cons.mp ha with rfl | hrest
    · by_cases h : upStr a.ticker ∈ acc
      · simpa [getUniqueTickersAux, h] using
          mem_getUniqueTickersAux_of_mem_acc rest acc _ h
      · simpa [getUniqueTickersAux, h] using
          mem_getUniqueTickersAux_of_mem_acc rest (acc ++ [upStr a.ticker]) _
            (List.mem_append_right _ (List.mem_singleton.mpr rfl))
    · by_cases h : upStr hd.ticker ∈ acc <;>
        simpa [getUniqueTickersAux, h] using ih _ a hrest

theorem getUniqueTickersAux_shape :
    ∀ (alerts : List AlertConfig) (acc : List String) (x : String),
      x ∈ getUniqueTickersAux alerts acc →
        x ∈ acc ∨ ∃ a ∈ alerts, x = upStr a.ticker := by
  intro alerts
  induction alerts with
  | nil =>
    intro acc x hx
    exact Or.inl (by simpa [getUniqueTickersAux] using hx)
  | cons hd rest ih =>
    intro acc x hx
    by_cases h : upStr hd.ticker ∈ acc
    · rcases ih acc x (by simpa [getUniqueTickersAux, h] using hx) with hacc | ⟨a, ha, rfl⟩
      · exact Or.inl hacc
      · exact Or.inr ⟨a, List.mem_cons_of_mem hd ha, rfl⟩
    · rcases ih (acc ++ [upStr hd.ticker]) x
          (by simpa [getUniqueTickersAux, h] using hx) with hacc | ⟨a, ha, rfl⟩
      · rcases List.mem_append.mp hacc with h1 | h2
        · exact Or.inl h1
        · exact Or.inr ⟨hd, List.mem_cons_self hd rest,
            List.mem_singleton.mp h2⟩
      · exact Or.inr ⟨a, List.mem_cons_of_mem hd ha, rfl⟩

theorem getQuotesAux_getA_not_mem (fetch : String → Option Quote) :
    ∀ (l : List String) (m : List (String × Quote)) (le : Option String)
      (t : String), t ∉ l →
      getA (getQuotesAux fetch l m le).1 t = getA m t := by
  intro l
  induction l with
  | nil =>
    intro m le t _
    rfl
  | cons t' rest ih =>
    intro m le t ht
    have hne : t' ≠ t := fun h => ht (h ▸ List.mem_cons_self t' rest)
    have hnr : t ∉ rest := fun h => ht (List.mem_cons_of_mem t' h)
    cases hf : fetch t' with
    | none => simp [getQuotesAux, hf, ih _ _ _ hnr]
    | some q =>
      rw [show getQuotesAux fetch (t' :: rest) m le =
          getQuotesAux fetch rest (setA m t' q) le from by simp [getQuotesAux, hf]]
      rw [ih _ _ _ hnr, getA_setA_ne m q hne]

theorem getQuotesAux_getA_preserved (fetch : String → Option Quote)
    {t : String} {q : Quote} (hf : fetch t = some q) :
    ∀ (l : List String) (m : List (String × Quote)) (le : Option String),
      getA m t = some q → getA (getQuotesAux fetch l m le).1 t = some q := by
  intro l
  induction l with
  | nil =>
    intro m le hm
    exact hm
  | cons t' rest ih =>
    intro m le hm
    cases hf' : fetch t' with
    | none => simp [getQuotesAux, hf', ih _ _ hm]
    | some q' =>
      rw [show getQuotesAux fetch (t' :: rest) m le =
          getQuotesAux fetch rest (setA m t' q') le from by simp [getQuotesAux, hf']]
      by_cases he : t' = t
      · subst he
        have : q' = q := by
          rw [hf'] at hf
          exact (Option.some.injEq _ _ ▸ hf).symm ▸ rfl
        subst this
        exact ih _ _ (getA_setA_self m t' q')
      · exact ih _ _ (by rw [getA_setA_ne m q' he]; exact hm)

theorem getQuotesAux_getA_of_mem (fetch : String → Option Quote)
    {t : String} {q : Quote} (hf : fetch t = some q) :
    ∀ (l : List String) (m : List (String × Quote)) (le : Option String),
      t ∈ l → getA (getQuotesAux fetch l m le).1 t = some q := by
  intro l
  induction l with
  | nil =>
    intro m le hm
    exact absurd hm (List.not_mem_nil t)
  | cons t' rest ih =>
    intro m le hm
    by_cases he : t' = t
    · subst he
      rw [show getQuotesAux fetch (t' :: rest) m le =
          getQuotesAux fetch rest (setA m t' q) le from by simp [getQuotesAux, hf]]
      exact getQuotesAux_getA_preserved fetch hf rest _ le (getA_setA_self m t' q)
    · have hr : t ∈ rest := by
        rcases List.mem_cons.mp hm with h1 | h2
        · exact absurd h1.symm he
        · exact h2
      cases hf' : fetch t' with
      | none => simp [getQuotesAux, hf', ih _ _ hr]
      | some q' =>
        rw [show getQuotesAux fetch (t' :: rest) m le =
            getQuotesAux fetch rest (setA m t' q') le from by simp [getQuotesAux, hf']]
        exact ih _ _ hr

/-- A successful `GetQuotes` returns exactly the quotes map the loop
accumulated. -/
theorem getQuotes_ok_eq (fetch : String → Option Quote)
    (tickers : List String) (qs : List (String × Quote))
    (hok : GetQuotes fetch tickers = .ok qs) :
    qs = (getQuotesAux fetch tickers [] none).1 := by
  simp only [GetQuotes] at hok
  split at hok
  case h_2 =>
    exact (Except.ok.injEq _ _ ▸ hok).symm ▸ rfl
  case h_1 =>
    split at hok
    case isTrue => exact absurd hok (by simp)
    case isFalse =>
      exact (Except.ok.injEq _ _ ▸ hok).symm ▸ rfl

/-- C10: quotes are fetched under uppercased ticker symbols, but
evaluation looks them up under the ticker exactly as configured; hence
an alert whose configured ticker contains an ASCII lowercase letter
finds no quote, all its conditions are silently skipped on every run
(the evaluation result equals that of the configuration without the
alert), even when the fetch for its uppercased ticker succeeded and its
quote is present in the map. -/
theorem lowercase_ticker_never_evaluated
    (alerts pre post : List AlertConfig) (alert : AlertConfig)
    (fetch : String → Option Quote) (st : State) (now : Int)
    (qs : List (String × Quote))
    (hsplit : alerts = pre ++ alert :: post)
    (hlow : ∃ c ∈ alert.ticker.toList, isLowerA c = true)
    (hok : GetQuotes fetch (GetUniqueTickers alerts) = .ok qs) :
    getA qs alert.ticker = none ∧
    Evaluate st alerts qs now = Evaluate st (pre ++ post) qs now ∧
    (∀ q, fetch (upStr alert.ticker) = some q →
      getA qs (upStr alert.ticker) = some q) := by
  obtain ⟨c, hc, hcl⟩ := hlow
  have hqs : qs = (getQuotesAux fetch (GetUniqueTickers alerts) [] none).1 :=
    getQuotes_ok_eq fetch _ qs hok
  have hmem : alert ∈ alerts := by
    rw [hsplit]
    exact List.mem_append_right pre (List.mem_cons_self alert post)
  have hnone : getA qs alert.ticker = none := by
    have hnot : alert.ticker ∉ GetUniqueTickers alerts := by
      intro hm
      rcases getUniqueTickersAux_shape alerts [] alert.ticker hm with hacc | ⟨a, _, heq⟩
      · exact absurd hacc (List.not_mem_nil _)
      · have := upStr_no_lower a.ticker c (heq ▸ hc)
        rw [hcl] at this
        exact absurd this (by simp)
    rw [hqs, getQuotesAux_getA_not_mem fetch _ [] none _ hnot]
    rfl
  refine ⟨hnone, ?_, ?_⟩
  · rw [hsplit]
    exact evaluate_skip qs now alert hnone pre post st
  · intro q hfq
    rw [hqs]
    exact getQuotesAux_getA_of_mem fetch hfq _ [] none
      (upper_mem_getUniqueTickersAux alerts [] alert hmem)

/-- Witness for C10: the configured ticker "btc-usd" is fetched as
"BTC-USD" and its quote is in the map, yet the lookup under "btc-usd"
misses and the alert's condition is skipped. -/
theorem lowercase_ticker_never_evaluated_witness :
    getA [("BTC-USD", (⟨"BTC-USD", 105, 0, 0⟩ : Quote))]
        (AlertConfig.ticker ⟨"btc-usd", "", [⟨"above", 100, "", ""⟩]⟩) = none ∧
    Evaluate ⟨[], [], []⟩ [⟨"btc-usd", "", [⟨"above", 100, "", ""⟩]⟩]
        [("BTC-USD", (⟨"BTC-USD", 105, 0, 0⟩ : Quote))] 0 =
      Evaluate ⟨[], [], []⟩ ([] ++ [])
        [("BTC-USD", (⟨"BTC-USD", 105, 0, 0⟩ : Quote))] 0 ∧
    (∀ q, (fun t => if t = "BTC-USD" then some (⟨"BTC-USD", 105, 0, 0⟩ : Quote) else none)
        (upStr (AlertConfig.ticker ⟨"btc-usd", "", [⟨"above", 100, "", ""⟩]⟩)) = some q →
      getA [("BTC-USD", (⟨"BTC-USD", 105, 0, 0⟩ : Quote))]
        (upStr (AlertConfig.ticker ⟨"btc-usd", "", [⟨"above", 100, "", ""⟩]⟩)) = some q) :=
  lowercase_ticker_never_evaluated
    [⟨"btc-usd", "", [⟨"above", 100, "", ""⟩]⟩] [] []
    ⟨"btc-usd", "", [⟨"above", 100, "", ""⟩]⟩
    (fun t => if t = "BTC-USD" then some (⟨"BTC-USD", 105, 0, 0⟩ : Quote) else none)
    ⟨[], [], []⟩ 0
    [("BTC-USD", (⟨"BTC-USD", 105, 0, 0⟩ : Quote))]
    rfl (by decide) rfl

end AssetAlerts
